import Mathlib

/-!
# Verification of the GStreamer Swift shim (`CGStreamerShim`)

Shallow embedding of `Sources/CGStreamerShim/GStreamerShim.c` and its header.
The repository contains only the C shim layer: every `swift_gst_*` function
below is translated directly from the C source.  The underlying GStreamer
runtime (`gst_*` functions) is an external collaborator that is not part of
the repository's sources, so those functions are modelled from the spec's
contracts (each such definition is marked `Modelled from the spec:`).

Machine integers that matter to the claims (`gint64` start/stop positions,
`GstClockTime` timeouts) are modelled as `Int`/`Nat`; `gdouble` values are
modelled as `Rat` since no claim depends on floating-point rounding.
-/

/-- Modelled from the spec: "Lifecycle State — one of NULL, READY, PAUSED,
PLAYING, totally ordered for transition purposes" (§3).  The C enum
`GstState` is external to the repository. -/
inductive GstState where
  | NULL
  | READY
  | PAUSED
  | PLAYING
deriving DecidableEq, Repr, Fintype

/-- The position of a lifecycle state in the total order NULL < READY <
PAUSED < PLAYING (§3, §4.4). -/
def stateIdx : GstState → Nat
  | .NULL => 0
  | .READY => 1
  | .PAUSED => 2
  | .PLAYING => 3

/-- The lifecycle state at a given position of the total order. -/
def stateOfIdx : Nat → GstState
  | 0 => .NULL
  | 1 => .READY
  | 2 => .PAUSED
  | _ => .PLAYING

/-- Modelled from the spec: "transitions must be requested one step at a time
by the caller but the machine internally walks intermediate states up to the
requested target" (§4.4).  `statePath s t` is the ordered list of states the
machine enters, one step at a time, when an element currently in `s` is
driven to target `t` (empty when `s = t`). -/
def statePath (s t : GstState) : List GstState :=
  if stateIdx s ≤ stateIdx t then
    (List.range (stateIdx t - stateIdx s)).map (fun i => stateOfIdx (stateIdx s + 1 + i))
  else
    (List.range (stateIdx s - stateIdx t)).map (fun i => stateOfIdx (stateIdx s - 1 - i))

/-- Modelled from the spec: "Each Element and Graph carries a *current*
state, an optional *pending* state (in flight), and a *target* state" (§3).
`settleAfter` is the remaining time (in the fixed nanosecond-equivalent
unit, §6) an in-flight asynchronous transition needs before it settles. -/
structure ElementState where
  current : GstState
  pending : Option GstState
  settleAfter : Nat
deriving DecidableEq, Repr

/-- Modelled from the spec: `setState(graphOrElement, targetState)` walks the
intermediate states up to the requested target (§4.4).  Returns the settled
element together with the ordered list of states walked through. -/
def gst_element_set_state (e : ElementState) (target : GstState) :
    ElementState × List GstState :=
  (⟨target, none, 0⟩, statePath e.current target)

/-- Shim function `swift_gst_element_set_state` (GStreamerShim.c:68-70): forwards to
`gst_element_set_state`. -/
def swift_gst_element_set_state (e : ElementState) (target : GstState) :
    ElementState × List GstState :=
  gst_element_set_state e target

/-- Modelled from the spec: "`getState(element, timeout) -> State` blocks up
to `timeout` for an in-flight asynchronous transition to settle, returning
the current (possibly still-pending) state if it does not settle in time; a
zero timeout polls without blocking" (§4.4).  Returns the time actually
spent blocked together with the reported state. -/
def gst_element_get_state (e : ElementState) (timeout : Nat) : Nat × GstState :=
  match e.pending with
  | none => (0, e.current)
  | some p =>
    if timeout = 0 then (0, e.current)
    else if e.settleAfter ≤ timeout then (e.settleAfter, p)
    else (timeout, e.current)

/-- Shim function `swift_gst_element_get_state` (GStreamerShim.c:72-76): calls
`gst_element_get_state(element, &state, NULL, timeout)` and returns the
reported state. -/
def swift_gst_element_get_state (e : ElementState) (timeout : Nat) : GstState :=
  (gst_element_get_state e timeout).2

/-- Modelled from the spec: Message kinds "ERROR, WARNING, INFO,
STATE_CHANGED, EOS, other" (§3).  The C enum `GstMessageType` is external to
the repository. -/
inductive MessageKind where
  | ERROR
  | WARNING
  | INFO
  | STATE_CHANGED
  | EOS
  | OTHER
deriving DecidableEq, Repr

/-- Modelled from the spec: "Message — an immutable, ordered event ... kind
..., originating Element reference, and kind-specific payload
(human-readable text + debug text, or old/new/pending states)" (§3). -/
structure Message where
  kind : MessageKind
  srcName : String
  text : String
  debug : String
  oldState : GstState
  newState : GstState
  pendingState : GstState
deriving DecidableEq, Repr

/-- Modelled from the spec: "Bus — an ordered FIFO queue of Messages" (§3);
`gst_bus_pop` is the non-blocking pop, returning the front message and the
remaining queue, or `none` on an empty queue. -/
def gst_bus_pop (bus : List Message) : Option Message × List Message :=
  match bus with
  | [] => (none, [])
  | m :: rest => (some m, rest)

/-- Shim function `swift_gst_bus_pop` (GStreamerShim.c:82-84): forwards to `gst_bus_pop`. -/
def swift_gst_bus_pop (bus : List Message) : Option Message × List Message :=
  gst_bus_pop bus

/-- Modelled from the spec: "filtered pop *removes and discards* non-matching
messages it encounters while waiting, returning only the first match or
Empty on timeout" (§4.5).  The timeout argument bounds the real-time wait
and does not affect which queued message matches, so it is carried but not
interpreted; an exhausted queue is the timeout outcome. -/
def gst_bus_timed_pop_filtered (bus : List Message) (timeout : Nat)
    (types : List MessageKind) : Option Message × List Message :=
  match bus with
  | [] => (none, [])
  | m :: rest =>
    if m.kind ∈ types then (some m, rest)
    else gst_bus_timed_pop_filtered rest timeout types

/-- Shim function `swift_gst_bus_timed_pop_filtered` (GStreamerShim.c:90-92): forwards to
`gst_bus_timed_pop_filtered`. -/
def swift_gst_bus_timed_pop_filtered (bus : List Message) (timeout : Nat)
    (types : List MessageKind) : Option Message × List Message :=
  gst_bus_timed_pop_filtered bus timeout types

/-- Repeatedly applying `gst_bus_pop` until the bus reports Empty, collecting
the returned messages in order; the fuel argument bounds the recursion. -/
def drainFuel : Nat → List Message → List Message
  | 0, _ => []
  | fuel + 1, q =>
    match gst_bus_pop q with
    | (none, _) => []
    | (some m, rest) => m :: drainFuel fuel rest

/-- All messages obtained by sequential non-blocking pops of a bus. -/
def drainAll (q : List Message) : List Message :=
  drainFuel q.length q

/-- Whitespace characters insignificant in textual descriptions. -/
def isSp (c : Char) : Bool := c = ' ' || c = '\t'

/-- Strip leading and trailing whitespace from a character list. -/
def trimChars (l : List Char) : List Char :=
  ((l.dropWhile isSp).reverse.dropWhile isSp).reverse

/-- Split a character list at every occurrence of the separator; always
returns at least one (possibly empty) part. -/
def splitOnChar (sep : Char) : List Char → List (List Char)
  | [] => [[]]
  | c :: rest =>
    match splitOnChar sep rest with
    | [] => [[]]
    | p :: ps => if c = sep then [] :: p :: ps else (c :: p) :: ps

/-- Modelled from the spec: "Element — a named processing node with a type
(factory name) and a set of typed properties"; "Graph (a Bin ...) — an
ordered, named collection of Elements, itself usable as an Element" (§3).
The C type `GstElement` is external to the repository; bins carry their
children, non-bins have `isBin = false` and no children. -/
inductive GElement where
  | mk (name factory : String) (isBin : Bool)
      (boolProps : List (String × Bool))
      (intProps : List (String × Int))
      (strProps : List (String × String))
      (doubleProps : List (String × Rat))
      (children : List GElement)

/-- The element's instance name. -/
def GElement.name : GElement → String
  | .mk n _ _ _ _ _ _ _ => n

/-- The element's factory (type) name. -/
def GElement.factory : GElement → String
  | .mk _ f _ _ _ _ _ _ => f

/-- Whether the element is a Bin (`GST_IS_BIN`). -/
def GElement.isBin : GElement → Bool
  | .mk _ _ b _ _ _ _ _ => b

/-- The element's boolean properties. -/
def GElement.boolProps : GElement → List (String × Bool)
  | .mk _ _ _ bp _ _ _ _ => bp

/-- The element's integer properties. -/
def GElement.intProps : GElement → List (String × Int)
  | .mk _ _ _ _ ip _ _ _ => ip

/-- The element's string properties. -/
def GElement.strProps : GElement → List (String × String)
  | .mk _ _ _ _ _ sp _ _ => sp

/-- The element's double properties (`gdouble` modelled as `Rat`). -/
def GElement.doubleProps : GElement → List (String × Rat)
  | .mk _ _ _ _ _ _ dp _ => dp

/-- The bin's direct children (empty for non-bins). -/
def GElement.children : GElement → List GElement
  | .mk _ _ _ _ _ _ _ cs => cs

/-- Modelled from the spec: the generic property accessor collaborator
"`getProperty<T>(element, name) -> T | defaultForT`" (§6) — `g_object_get`
writes the property value into the caller's location only when the element
has a property of that name; on an unknown name it writes nothing. -/
def g_object_get_bool (e : GElement) (name : String) : Option Bool :=
  (e.boolProps.find? (fun kv => kv.1 = name)).map (fun kv => kv.2)

/-- Modelled from the spec: `g_object_get` for an integer property (§6). -/
def g_object_get_int (e : GElement) (name : String) : Option Int :=
  (e.intProps.find? (fun kv => kv.1 = name)).map (fun kv => kv.2)

/-- Modelled from the spec: `g_object_get` for a string property (§6). -/
def g_object_get_string (e : GElement) (name : String) : Option String :=
  (e.strProps.find? (fun kv => kv.1 = name)).map (fun kv => kv.2)

/-- Modelled from the spec: `g_object_get` for a double property (§6). -/
def g_object_get_double (e : GElement) (name : String) : Option Rat :=
  (e.doubleProps.find? (fun kv => kv.1 = name)).map (fun kv => kv.2)

/-- Shim function `swift_gst_element_get_bool` (GStreamerShim.c:214-218): initialises
`value = FALSE`, calls `g_object_get`, returns `value`. -/
def swift_gst_element_get_bool (e : GElement) (name : String) : Bool :=
  match g_object_get_bool e name with
  | some v => v
  | none => false

/-- Shim function `swift_gst_element_get_int` (GStreamerShim.c:220-224): initialises
`value = 0`, calls `g_object_get`, returns `value`. -/
def swift_gst_element_get_int (e : GElement) (name : String) : Int :=
  match g_object_get_int e name with
  | some v => v
  | none => 0

/-- Shim function `swift_gst_element_get_string` (GStreamerShim.c:226-230): initialises
`value = NULL`, calls `g_object_get`, returns `value` (`none` is NULL). -/
def swift_gst_element_get_string (e : GElement) (name : String) : Option String :=
  match g_object_get_string e name with
  | some v => some v
  | none => none

/-- Shim function `swift_gst_element_get_double` (GStreamerShim.c:232-236): initialises
`value = 0.0`, calls `g_object_get`, returns `value`. -/
def swift_gst_element_get_double (e : GElement) (name : String) : Rat :=
  match g_object_get_double e name with
  | some v => v
  | none => 0

/-- Modelled from the spec: "`findByName(name) -> Element | NotFound`" on a
Graph's direct children (§4.2) — the underlying `gst_bin_get_by_name`. -/
def gst_bin_get_by_name (bin : GElement) (name : String) : Option GElement :=
  bin.children.find? (fun c => c.name = name)

/-- Shim function `swift_gst_bin_get_by_name` (GStreamerShim.c:61-66): returns NULL when
the handle is not a bin, otherwise forwards to `gst_bin_get_by_name`. -/
def swift_gst_bin_get_by_name (bin : GElement) (name : String) : Option GElement :=
  if bin.isBin then gst_bin_get_by_name bin name else none

/-- Modelled from the spec: "`add(element) -> void | AlreadyOwnedError`" and
"names are unique within a single Graph's direct children" (§3, §4.2) — the
underlying `gst_bin_add`, returning success and the updated bin. -/
def gst_bin_add (bin el : GElement) : Bool × GElement :=
  if bin.children.any (fun c => c.name = el.name) then (false, bin)
  else
    (true, .mk bin.name bin.factory bin.isBin bin.boolProps bin.intProps
      bin.strProps bin.doubleProps (bin.children ++ [el]))

/-- Shim function `swift_gst_bin_add` (GStreamerShim.c:292-297): returns FALSE when the
handle is not a bin, otherwise forwards to `gst_bin_add`. -/
def swift_gst_bin_add (bin el : GElement) : Bool × GElement :=
  if bin.isBin then gst_bin_add bin el else (false, bin)

/-- Modelled from the spec: "`remove(element) -> void | NotFoundError`"
(§4.2) — the underlying `gst_bin_remove`, returning success and the updated
bin. -/
def gst_bin_remove (bin el : GElement) : Bool × GElement :=
  if bin.children.any (fun c => c.name = el.name) then
    (true, .mk bin.name bin.factory bin.isBin bin.boolProps bin.intProps
      bin.strProps bin.doubleProps
      (bin.children.filter (fun c => ¬ c.name = el.name)))
  else (false, bin)

/-- Shim function `swift_gst_bin_remove` (GStreamerShim.c:299-304): returns FALSE when the
handle is not a bin, otherwise forwards to `gst_bin_remove`. -/
def swift_gst_bin_remove (bin el : GElement) : Bool × GElement :=
  if bin.isBin then gst_bin_remove bin el else (false, bin)

/-- Modelled from the spec: "graphToDiagnosticText(graph, detailLevel) ->
text | Empty — a serialized textual representation of the current graph
topology" (§6) — the underlying `gst_debug_bin_to_dot_data`. -/
def gst_debug_bin_to_dot_data (bin : GElement) (details : Nat) : String :=
  "digraph pipeline: level " ++ toString details ++ ": " ++
    String.intercalate "; " (bin.children.map GElement.name)

/-- Shim function `swift_gst_debug_bin_to_dot_data` (GStreamerShim.c:432-437): returns
NULL when the handle is not a bin, otherwise forwards to
`gst_debug_bin_to_dot_data`. -/
def swift_gst_debug_bin_to_dot_data (bin : GElement) (details : Nat) :
    Option String :=
  if bin.isBin then some (gst_debug_bin_to_dot_data bin details) else none

/-- Modelled from the spec: "`parseDescription(text) -> Graph | ParseError`
builds a full Graph (possibly a single Element) from a textual chain/graph
description in one pass; on syntax or reference error, returns a descriptive
error and no partial Graph" (§4.1); the grammar itself is opaque input (§6),
modelled here as `!`-separated element names.  The underlying
`gst_parse_launch` is external to the repository. -/
def gst_parse_launch (desc : String) : Except String GElement :=
  let names := (splitOnChar '!' desc.data).map (fun part => String.mk (trimChars part))
  if names.any (fun n => n = "") then
    .error ("syntax error: could not parse pipeline description: " ++ desc)
  else
    .ok (.mk "pipeline0" "pipeline" true [] [] [] []
      (names.map (fun n => .mk n n false [] [] [] [] [])))

/-- Shim function `swift_gst_parse_launch` (GStreamerShim.c:45-59): calls
`gst_parse_launch`; on error copies the parser's message into
`*error_message` (first component NULL), on success sets `*error_message`
to NULL and returns the pipeline. -/
def swift_gst_parse_launch (desc : String) : Option GElement × Option String :=
  match gst_parse_launch desc with
  | .error e => (none, some e)
  | .ok g => (some g, none)

/-- Modelled from the spec: the kind-specific payload accessor is "valid
only for the matching kind — calling the wrong accessor yields `Empty`/null
payload, not a crash" (§4.5): `gst_message_parse_error` writes the error and
debug texts only for an ERROR message. -/
def gst_message_parse_error (m : Message) : Option (String × String) :=
  if m.kind = .ERROR then some (m.text, m.debug) else none

/-- Modelled from the spec (§4.5): `gst_message_parse_warning` writes the
payload only for a WARNING message. -/
def gst_message_parse_warning (m : Message) : Option (String × String) :=
  if m.kind = .WARNING then some (m.text, m.debug) else none

/-- Modelled from the spec (§4.5): `gst_message_parse_info` writes the
payload only for an INFO message. -/
def gst_message_parse_info (m : Message) : Option (String × String) :=
  if m.kind = .INFO then some (m.text, m.debug) else none

/-- Modelled from the spec (§4.5): `gst_message_parse_state_changed` writes
the old/new/pending states only for a STATE_CHANGED message. -/
def gst_message_parse_state_changed (m : Message) :
    Option (GstState × GstState × GstState) :=
  if m.kind = .STATE_CHANGED then
    some (m.oldState, m.newState, m.pendingState)
  else none

/-- Shim function `swift_gst_message_parse_error` (GStreamerShim.c:102-120): initialises
`error = NULL`, `debug = NULL`, calls `gst_message_parse_error`, then sets
`*error_string` to a copy of the error text when present (else NULL) and
`*debug_string` to the debug text (NULL when not written). -/
def swift_gst_message_parse_error (m : Message) : Option String × Option String :=
  let parsed := gst_message_parse_error m
  (parsed.map (fun p => p.1), parsed.map (fun p => p.2))

/-- Shim function `swift_gst_message_parse_warning` (GStreamerShim.c:122-140): same shape
as the error accessor, for WARNING messages. -/
def swift_gst_message_parse_warning (m : Message) : Option String × Option String :=
  let parsed := gst_message_parse_warning m
  (parsed.map (fun p => p.1), parsed.map (fun p => p.2))

/-- Shim function `swift_gst_message_parse_info` (GStreamerShim.c:142-160): same shape as
the error accessor, for INFO messages. -/
def swift_gst_message_parse_info (m : Message) : Option String × Option String :=
  let parsed := gst_message_parse_info m
  (parsed.map (fun p => p.1), parsed.map (fun p => p.2))

/-- Shim function `swift_gst_message_parse_state_changed` (GStreamerShim.c:238-240):
forwards to `gst_message_parse_state_changed`. -/
def swift_gst_message_parse_state_changed (m : Message) :
    Option (GstState × GstState × GstState) :=
  gst_message_parse_state_changed m

/-- The `GstSeekType` enum: how a seek boundary is interpreted (external to
the repository; only `NONE` and `SET` are used by the shim). -/
inductive GstSeekType where
  | NONE
  | SET
deriving DecidableEq, Repr

/-- The `GstFormat` enum (external to the repository; the shim always seeks
in TIME format). -/
inductive GstFormat where
  | UNDEFINED
  | BYTES
  | TIME
deriving DecidableEq, Repr

/-- The full argument record a seek call passes to the underlying
`gst_element_seek`. -/
structure SeekArgs where
  rate : Rat
  format : GstFormat
  flags : Nat
  startType : GstSeekType
  start : Int
  stopType : GstSeekType
  stop : Int
deriving DecidableEq, Repr

/-- Shim function `swift_gst_element_seek` (GStreamerShim.c:263-272): issues
`gst_element_seek(element, rate, GST_FORMAT_TIME, flags, GST_SEEK_TYPE_SET,
start, stop >= 0 ? GST_SEEK_TYPE_SET : GST_SEEK_TYPE_NONE, stop)`.  The
embedding returns the argument record handed to the underlying call. -/
def swift_gst_element_seek (rate : Rat) (start stop : Int) (flags : Nat) :
    SeekArgs :=
  ⟨rate, .TIME, flags, .SET, start, if stop ≥ 0 then .SET else .NONE, stop⟩

/-- Split a character list at its first `=`, when one occurs. -/
def splitOnEq : List Char → Option (List Char × List Char)
  | [] => none
  | c :: rest =>
    if c = '=' then some ([], rest)
    else (splitOnEq rest).map (fun kv => (c :: kv.1, kv.2))

/-- Read one `key=value` attribute of a capability string: the part must
contain an `=`, and the trimmed key must be non-empty. -/
def parseAttr (part : List Char) : Option (List Char × List Char) :=
  match splitOnEq part with
  | none => none
  | some kv =>
    let k := trimChars kv.1
    let v := trimChars kv.2
    if k = [] then none else some (k, v)

/-- Read every attribute part of a capability string, failing when any part
is malformed. -/
def parseAttrs : List (List Char) → Option (List (List Char × List Char))
  | [] => some []
  | part :: rest =>
    match parseAttr part, parseAttrs rest with
    | some kv, some kvs => some (kv :: kvs)
    | _, _ => none

/-- Modelled from the spec: "Caps — an immutable capability descriptor
(structured type + attributes) ... never mutated in place after creation
from its canonical string form" (§3). -/
structure Caps where
  mediaType : List Char
  attrs : List (List Char × List Char)
deriving DecidableEq, Repr

/-- Modelled from the spec (§3, §8): the underlying `gst_caps_from_string`,
reading `type, key=value, key=value, ...` with insignificant whitespace
around each token; external to the repository. -/
def caps_from_chars (l : List Char) : Option Caps :=
  match splitOnChar ',' l with
  | [] => none
  | t :: parts =>
    let mt := trimChars t
    if mt = [] ∨ '=' ∈ mt then none
    else (parseAttrs parts).map (fun as => ⟨mt, as⟩)

/-- Modelled from the spec (§3): the underlying `gst_caps_to_string`,
serialising the structured content back to its canonical textual form;
external to the repository. -/
def caps_to_chars (c : Caps) : List Char :=
  c.mediaType ++ (c.attrs.map (fun kv => ',' :: (kv.1 ++ '=' :: kv.2))).flatten

/-- Shim function `swift_gst_caps_from_string` (GStreamerShim.c:186-188): forwards to
`gst_caps_from_string` (NULL on malformed input, modelled as `none`). -/
def swift_gst_caps_from_string (s : String) : Option Caps :=
  caps_from_chars s.data

/-- Shim function `swift_gst_caps_to_string` (GStreamerShim.c:190-192): forwards to
`gst_caps_to_string`. -/
def swift_gst_caps_to_string (c : Caps) : String :=
  String.mk (caps_to_chars c)

/-- Same structured content (§8): equal media types and the same attribute
set up to reordering. -/
def capsContentEquiv (c₁ c₂ : Caps) : Prop :=
  c₁.mediaType = c₂.mediaType ∧ c₁.attrs.Perm c₂.attrs

/-- Semantic equivalence of capability strings (§8): both are well formed
and carry the same structured content, insensitive to whitespace and
attribute order. -/
def capsEquiv (s₁ s₂ : String) : Prop :=
  ∃ c₁ c₂, swift_gst_caps_from_string s₁ = some c₁ ∧
    swift_gst_caps_from_string s₂ = some c₂ ∧ capsContentEquiv c₁ c₂

/-- A token as stored in a parsed `Caps` value: already trimmed and free of
the comma separator. -/
def goodToken (l : List Char) : Prop :=
  trimChars l = l ∧ ',' ∉ l

/-- The shape invariant of every `Caps` value produced by
`caps_from_chars`: all tokens trimmed and comma-free, the media type and
every key non-empty and free of `=`. -/
def capsWellFormed (c : Caps) : Prop :=
  goodToken c.mediaType ∧ c.mediaType ≠ [] ∧ '=' ∉ c.mediaType ∧
    ∀ kv ∈ c.attrs, goodToken kv.1 ∧ kv.1 ≠ [] ∧ '=' ∉ kv.1 ∧ goodToken kv.2

/-- Predicate `isOneStepWalk s path` checks that, starting from `s`, each successive
state of `path` is exactly one position away in the lifecycle order — the
walk proceeds one step at a time and skips no state. -/
def isOneStepWalk : GstState → List GstState → Bool
  | _, [] => true
  | a, b :: rest =>
    (stateIdx b == stateIdx a + 1 || stateIdx a == stateIdx b + 1) &&
      isOneStepWalk b rest

/-- A sample WARNING message. -/
def warningMessage : Message :=
  ⟨.WARNING, "demux0", "could not negotiate format", "warn-debug", .NULL, .NULL, .NULL⟩

/-- A sample EOS message. -/
def eosMessage : Message :=
  ⟨.EOS, "sink0", "", "", .NULL, .NULL, .NULL⟩

/-- A sample ERROR message. -/
def errorMessage : Message :=
  ⟨.ERROR, "src0", "resource not found", "error-debug", .NULL, .NULL, .NULL⟩

/-- C3: a single `swift_gst_element_set_state` call walks every intermediate
lifecycle state in order and skips none: the walked path moves one step at a
time, ends at the requested target, and passes through every state lying
between the current state and the target; in particular NULL→PLAYING walks
READY, PAUSED, PLAYING and PLAYING→NULL walks PAUSED, READY, NULL. -/
theorem set_state_walks_every_intermediate_state :
    (∀ (e : ElementState) (target : GstState),
      isOneStepWalk e.current (swift_gst_element_set_state e target).2 = true ∧
      (e.current :: (swift_gst_element_set_state e target).2).getLast? = some target ∧
      (∀ u : GstState,
        min (stateIdx e.current) (stateIdx target) ≤ stateIdx u →
        stateIdx u ≤ max (stateIdx e.current) (stateIdx target) →
        u = e.current ∨ u ∈ (swift_gst_element_set_state e target).2)) ∧
    (swift_gst_element_set_state ⟨.NULL, none, 0⟩ .PLAYING).2 =
      [.READY, .PAUSED, .PLAYING] ∧
    (swift_gst_element_set_state ⟨.PLAYING, none, 0⟩ .NULL).2 =
      [.PAUSED, .READY, .NULL] := by
  refine ⟨?_, by decide, by decide⟩
  intro e target
  have h : ∀ s t : GstState,
      isOneStepWalk s (statePath s t) = true ∧
      (s :: statePath s t).getLast? = some t ∧
      ∀ u : GstState, min (stateIdx s) (stateIdx t) ≤ stateIdx u →
        stateIdx u ≤ max (stateIdx s) (stateIdx t) →
        u = s ∨ u ∈ statePath s t := by decide
  exact h e.current target

/-- C3 witness: driving an element from NULL to PLAYING passes through
PAUSED. -/
theorem set_state_walks_witness :
    GstState.PAUSED = GstState.NULL ∨
      GstState.PAUSED ∈ (swift_gst_element_set_state ⟨.NULL, none, 0⟩ .PLAYING).2 :=
  (set_state_walks_every_intermediate_state.1 ⟨.NULL, none, 0⟩ .PLAYING).2.2
    .PAUSED (by decide) (by decide)

/-- C4: `getState` with a zero timeout never blocks — the time spent blocked
is zero even while an asynchronous transition is pending — and it returns
the element's current (possibly still-pending) state. -/
theorem get_state_zero_timeout_never_blocks :
    ∀ e : ElementState,
      (gst_element_get_state e 0).1 = 0 ∧
      swift_gst_element_get_state e 0 = e.current := by
  intro e
  unfold swift_gst_element_get_state gst_element_get_state
  cases e.pending <;> simp

/-- C10: every `swift_gst_element_seek` call is issued in TIME format with an
absolute (SET) start boundary, and the stop boundary is absolute exactly
when `stop ≥ 0`; for negative stop the seek carries no stop bound — the sign
of `stop` alone decides the stop boundary. -/
theorem seek_stop_sign_decides_stop_boundary :
    ∀ (rate : Rat) (start stop : Int) (flags : Nat),
      (swift_gst_element_seek rate start stop flags).format = GstFormat.TIME ∧
      (swift_gst_element_seek rate start stop flags).startType = GstSeekType.SET ∧
      (swift_gst_element_seek rate start stop flags).start = start ∧
      ((swift_gst_element_seek rate start stop flags).stopType = GstSeekType.SET ↔
        0 ≤ stop) ∧
      ((swift_gst_element_seek rate start stop flags).stopType = GstSeekType.NONE ↔
        stop < 0) ∧
      (swift_gst_element_seek rate start stop flags).stop = stop := by
  intro rate start stop flags
  unfold swift_gst_element_seek
  refine ⟨rfl, rfl, rfl, ?_, ?_, rfl⟩ <;>
    rcases le_or_lt 0 stop with h | h
  · simp only [if_pos (show stop ≥ 0 from h)]
    simp [h]
  · simp only [if_neg (show ¬ stop ≥ 0 from not_le.mpr h)]
    simp [not_le.mpr h]
  · simp only [if_pos (show stop ≥ 0 from h)]
    simp [not_lt.mpr h]
  · simp only [if_neg (show ¬ stop ≥ 0 from not_le.mpr h)]
    simp [h]

/-- C5: calling a parse accessor on a Message whose kind does not match
yields a null payload — the shim leaves the caller's out-strings NULL — and
(being a total function) does not crash. -/
theorem wrong_kind_parse_accessor_yields_null :
    ∀ m : Message,
      (m.kind ≠ .ERROR → swift_gst_message_parse_error m = (none, none)) ∧
      (m.kind ≠ .WARNING → swift_gst_message_parse_warning m = (none, none)) ∧
      (m.kind ≠ .INFO → swift_gst_message_parse_info m = (none, none)) ∧
      (m.kind ≠ .STATE_CHANGED → swift_gst_message_parse_state_changed m = none) := by
  intro m
  refine ⟨fun h => ?_, fun h => ?_, fun h => ?_, fun h => ?_⟩ <;>
    simp [swift_gst_message_parse_error, gst_message_parse_error,
      swift_gst_message_parse_warning, gst_message_parse_warning,
      swift_gst_message_parse_info, gst_message_parse_info,
      swift_gst_message_parse_state_changed, gst_message_parse_state_changed, h]

/-- C5 witness: an EOS message yields a null payload from the error, warning
and info accessors, and an ERROR message yields none from the state-changed
accessor. -/
theorem wrong_kind_parse_accessor_witness :
    swift_gst_message_parse_error eosMessage = (none, none) ∧
    swift_gst_message_parse_warning eosMessage = (none, none) ∧
    swift_gst_message_parse_info eosMessage = (none, none) ∧
    swift_gst_message_parse_state_changed errorMessage = none :=
  ⟨(wrong_kind_parse_accessor_yields_null eosMessage).1 (by decide),
   (wrong_kind_parse_accessor_yields_null eosMessage).2.1 (by decide),
   (wrong_kind_parse_accessor_yields_null eosMessage).2.2.1 (by decide),
   (wrong_kind_parse_accessor_yields_null errorMessage).2.2.2 (by decide)⟩

/-- C6: for a property name unknown to the element, each typed getter
returns the type's zero value — FALSE, 0, NULL, 0.0 — and (being total)
does not crash. -/
theorem unknown_property_getters_return_zero :
    ∀ (e : GElement) (name : String),
      (∀ kv ∈ e.boolProps, kv.1 ≠ name) →
      (∀ kv ∈ e.intProps, kv.1 ≠ name) →
      (∀ kv ∈ e.strProps, kv.1 ≠ name) →
      (∀ kv ∈ e.doubleProps, kv.1 ≠ name) →
      swift_gst_element_get_bool e name = false ∧
      swift_gst_element_get_int e name = 0 ∧
      swift_gst_element_get_string e name = none ∧
      swift_gst_element_get_double e name = 0 := by
  intro e name hb hi hs hd
  have fb : e.boolProps.find? (fun kv => kv.1 = name) = none :=
    List.find?_eq_none.mpr (fun kv hkv => by simpa using hb kv hkv)
  have fi : e.intProps.find? (fun kv => kv.1 = name) = none :=
    List.find?_eq_none.mpr (fun kv hkv => by simpa using hi kv hkv)
  have fs : e.strProps.find? (fun kv => kv.1 = name) = none :=
    List.find?_eq_none.mpr (fun kv hkv => by simpa using hs kv hkv)
  have fd : e.doubleProps.find? (fun kv => kv.1 = name) = none :=
    List.find?_eq_none.mpr (fun kv hkv => by simpa using hd kv hkv)
  refine ⟨?_, ?_, ?_, ?_⟩ <;>
    simp [swift_gst_element_get_bool, g_object_get_bool,
      swift_gst_element_get_int, g_object_get_int,
      swift_gst_element_get_string, g_object_get_string,
      swift_gst_element_get_double, g_object_get_double, fb, fi, fs, fd]

/-- C6 witness: an element with one boolean property, asked for a name it
does not have, returns the zero value from every typed getter. -/
theorem unknown_property_getters_witness :
    swift_gst_element_get_bool
      (.mk "e0" "identity" false [("sync", true)] [("blocksize", 4096)]
        [("last-message", "msg")] [("scale", 1)] []) "no-such-property" = false ∧
    swift_gst_element_get_int
      (.mk "e0" "identity" false [("sync", true)] [("blocksize", 4096)]
        [("last-message", "msg")] [("scale", 1)] []) "no-such-property" = 0 ∧
    swift_gst_element_get_string
      (.mk "e0" "identity" false [("sync", true)] [("blocksize", 4096)]
        [("last-message", "msg")] [("scale", 1)] []) "no-such-property" = none ∧
    swift_gst_element_get_double
      (.mk "e0" "identity" false [("sync", true)] [("blocksize", 4096)]
        [("last-message", "msg")] [("scale", 1)] []) "no-such-property" = 0 :=
  unknown_property_getters_return_zero
    (.mk "e0" "identity" false [("sync", true)] [("blocksize", 4096)]
      [("last-message", "msg")] [("scale", 1)] []) "no-such-property"
    (by decide) (by decide) (by decide) (by decide)

/-- C9: on a handle that is not a Bin the bin-specific operations fail
cleanly without reaching the underlying bin machinery or changing any
state: by-name lookup and dot-data export return NULL, add and remove
return FALSE and leave the element unchanged. -/
theorem non_bin_operations_fail_cleanly :
    ∀ (e el : GElement) (name : String) (details : Nat),
      e.isBin = false →
      swift_gst_bin_get_by_name e name = none ∧
      swift_gst_debug_bin_to_dot_data e details = none ∧
      swift_gst_bin_add e el = (false, e) ∧
      swift_gst_bin_remove e el = (false, e) := by
  intro e el name details h
  refine ⟨?_, ?_, ?_, ?_⟩ <;>
    simp [swift_gst_bin_get_by_name, swift_gst_debug_bin_to_dot_data,
      swift_gst_bin_add, swift_gst_bin_remove, h]

/-- C9 witness: a plain (non-bin) source element rejects all four
bin-specific operations. -/
theorem non_bin_operations_witness :
    swift_gst_bin_get_by_name (.mk "src0" "fakesrc" false [] [] [] [] [])
      "child" = none ∧
    swift_gst_debug_bin_to_dot_data (.mk "src0" "fakesrc" false [] [] [] [] [])
      3 = none ∧
    swift_gst_bin_add (.mk "src0" "fakesrc" false [] [] [] [] [])
      (.mk "x" "identity" false [] [] [] [] []) =
      (false, .mk "src0" "fakesrc" false [] [] [] [] []) ∧
    swift_gst_bin_remove (.mk "src0" "fakesrc" false [] [] [] [] [])
      (.mk "x" "identity" false [] [] [] [] []) =
      (false, .mk "src0" "fakesrc" false [] [] [] [] []) :=
  non_bin_operations_fail_cleanly
    (.mk "src0" "fakesrc" false [] [] [] [] [])
    (.mk "x" "identity" false [] [] [] [] []) "child" 3 rfl

/-- C1: `swift_gst_parse_launch` couples the two results exactly as the
claim states — a parse failure yields a NULL graph together with the
parser's error message, a success yields the graph with a NULL error
message, and every call lands in one of those two shapes (never a partial
graph alongside an error). -/
theorem parse_launch_error_message_xor_graph :
    ∀ desc : String,
      (∀ e, gst_parse_launch desc = .error e →
        swift_gst_parse_launch desc = (none, some e)) ∧
      (∀ g, gst_parse_launch desc = .ok g →
        swift_gst_parse_launch desc = (some g, none)) ∧
      ((∃ msg, swift_gst_parse_launch desc = (none, some msg)) ∨
        (∃ g, swift_gst_parse_launch desc = (some g, none))) := by
  intro desc
  refine ⟨fun e h => ?_, fun g h => ?_, ?_⟩
  · simp [swift_gst_parse_launch, h]
  · simp [swift_gst_parse_launch, h]
  · unfold swift_gst_parse_launch
    cases gst_parse_launch desc
    · exact .inl ⟨_, rfl⟩
    · exact .inr ⟨_, rfl⟩

/-- C1 witness: a malformed description (trailing `!`) produces NULL graph
plus a descriptive message, and a well-formed two-element chain produces a
graph with NULL message. -/
theorem parse_launch_witness :
    swift_gst_parse_launch "fakesrc !" =
      (none,
        some "syntax error: could not parse pipeline description: fakesrc !") ∧
    swift_gst_parse_launch "fakesrc ! fakesink" =
      (some (.mk "pipeline0" "pipeline" true [] [] [] []
        [.mk "fakesrc" "fakesrc" false [] [] [] [] [],
         .mk "fakesink" "fakesink" false [] [] [] [] []]), none) :=
  ⟨(parse_launch_error_message_xor_graph "fakesrc !").1 _ rfl,
   (parse_launch_error_message_xor_graph "fakesrc ! fakesink").2.1 _ rfl⟩

/-- C7: sequential unfiltered non-blocking pops return messages in strict
FIFO emission order — draining any bus returns exactly the emitted sequence
— and for M1 (ERROR) emitted before M2 (EOS) the pops return M1, then M2,
then Empty. -/
theorem bus_pop_fifo_order :
    (∀ q : List Message, drainAll q = q) ∧
    (∀ m₁ m₂ : Message, m₁.kind = .ERROR → m₂.kind = .EOS →
      swift_gst_bus_pop [m₁, m₂] = (some m₁, [m₂]) ∧
      swift_gst_bus_pop [m₂] = (some m₂, []) ∧
      swift_gst_bus_pop [] = (none, [])) := by
  constructor
  · intro q
    suffices h : ∀ (n : Nat) (q : List Message), q.length ≤ n → drainFuel n q = q from
      h q.length q le_rfl
    intro n
    induction n with
    | zero =>
      intro q hq
      cases q with
      | nil => rfl
      | cons m rest => simp at hq
    | succ n ih =>
      intro q hq
      cases q with
      | nil => rfl
      | cons m rest =>
        simpa [drainFuel, gst_bus_pop] using ih rest (by simpa using hq)
  · intro m₁ m₂ h₁ h₂
    exact ⟨rfl, rfl, rfl⟩

/-- C7 witness: with a concrete ERROR message emitted before a concrete EOS
message, the three successive pops return them in order and then Empty. -/
theorem bus_pop_fifo_witness :
    swift_gst_bus_pop [errorMessage, eosMessage] = (some errorMessage, [eosMessage]) ∧
    swift_gst_bus_pop [eosMessage] = (some eosMessage, []) ∧
    swift_gst_bus_pop [] = (none, []) :=
  bus_pop_fifo_order.2 errorMessage eosMessage (by decide) (by decide)

/-- C2: the filtered blocking pop returns the first queued message whose
kind is in the mask, having removed and discarded every non-matching
message before it (none of which can be returned by a later pop), and
returns Empty when no queued message matches; in particular, against
[WARNING, EOS] a pop filtered to EOS returns the EOS message and leaves an
empty queue. -/
theorem timed_pop_filtered_discards_non_matching :
    (∀ (q : List Message) (timeout : Nat) (types : List MessageKind),
      (∀ m rest, swift_gst_bus_timed_pop_filtered q timeout types = (some m, rest) →
        m.kind ∈ types ∧
        ∃ pre, q = pre ++ m :: rest ∧ ∀ x ∈ pre, x.kind ∉ types) ∧
      (∀ rest, swift_gst_bus_timed_pop_filtered q timeout types = (none, rest) →
        ∀ x ∈ q, x.kind ∉ types)) ∧
    (swift_gst_bus_timed_pop_filtered [warningMessage, eosMessage] 100 [.EOS] =
      (some eosMessage, []) ∧
     swift_gst_bus_pop ((swift_gst_bus_timed_pop_filtered
        [warningMessage, eosMessage] 100 [.EOS]).2) = (none, [])) := by
  refine ⟨?_, by decide, by decide⟩
  intro q timeout types
  induction q with
  | nil =>
    refine ⟨fun m rest h => ?_, fun rest h x hx => ?_⟩
    · simp [swift_gst_bus_timed_pop_filtered, gst_bus_timed_pop_filtered] at h
    · simp at hx
  | cons a q ih =>
    by_cases ha : a.kind ∈ types
    · refine ⟨fun m rest h => ?_, fun rest h => ?_⟩
      · rw [show swift_gst_bus_timed_pop_filtered (a :: q) timeout types = (some a, q) by
            simp [swift_gst_bus_timed_pop_filtered, gst_bus_timed_pop_filtered, ha]] at h
        obtain ⟨rfl, rfl⟩ : a = m ∧ q = rest := by simpa [Prod.ext_iff] using h
        exact ⟨ha, [], by simp, by simp⟩
      · rw [show swift_gst_bus_timed_pop_filtered (a :: q) timeout types = (some a, q) by
            simp [swift_gst_bus_timed_pop_filtered, gst_bus_timed_pop_filtered, ha]] at h
        simp at h
    · have hstep : swift_gst_bus_timed_pop_filtered (a :: q) timeout types =
          swift_gst_bus_timed_pop_filtered q timeout types := by
        simp [swift_gst_bus_timed_pop_filtered, gst_bus_timed_pop_filtered, ha]
      refine ⟨fun m rest h => ?_, fun rest h x hx => ?_⟩
      · rw [hstep] at h
        obtain ⟨hm, pre, hpre, hnone⟩ := ih.1 m rest h
        refine ⟨hm, a :: pre, by simp [hpre], ?_⟩
        intro x hx
        rcases List.mem_cons.mp hx with hx | hx
        · exact hx ▸ ha
        · exact hnone x hx
      · rw [hstep] at h
        rcases List.mem_cons.mp hx with hx | hx
        · exact hx ▸ ha
        · exact ih.2 rest h x hx

/-- C2 witness: applied to the queue [WARNING, EOS] with mask containing
only EOS — the returned message is the EOS one, and the discarded prefix
(the WARNING) matches no kind in the mask. -/
theorem timed_pop_filtered_witness :
    eosMessage.kind ∈ [MessageKind.EOS] ∧
    ∃ pre, [warningMessage, eosMessage] = pre ++ eosMessage :: ([] : List Message) ∧
      ∀ x ∈ pre, x.kind ∉ [MessageKind.EOS] :=
  (timed_pop_filtered_discards_non_matching.1
    [warningMessage, eosMessage] 100 [.EOS]).1 eosMessage [] (by decide)

/-- The head of a non-empty `dropWhile` result fails the predicate. -/
theorem dropWhile_head_false {α : Type} (p : α → Bool) :
    ∀ (l : List α) (c : α) (t : List α),
      List.dropWhile p l = c :: t → p c = false := by
  intro l
  induction l with
  | nil => intro c t h; simp [List.dropWhile] at h
  | cons a l ih =>
    intro c t h
    rw [List.dropWhile_cons] at h
    by_cases ha : p a
    · rw [if_pos ha] at h
      exact ih c t h
    · rw [if_neg ha] at h
      injection h with h1 _
      subst h1
      simpa using ha

/-- Lemma: `List.dropWhile` is idempotent. -/
theorem dropWhile_self {α : Type} (p : α → Bool) (l : List α) :
    List.dropWhile p (List.dropWhile p l) = List.dropWhile p l := by
  cases h : List.dropWhile p l with
  | nil => rfl
  | cons c t =>
    rw [List.dropWhile_cons, dropWhile_head_false p l c t h]
    simp

/-- A non-empty `dropWhile` result keeps the last element of the list. -/
theorem dropWhile_keeps_getLast {α : Type} (p : α → Bool) :
    ∀ l : List α, List.dropWhile p l ≠ [] →
      (List.dropWhile p l).getLast? = l.getLast? := by
  intro l
  induction l with
  | nil => intro h; simp at h
  | cons a l ih =>
    intro h
    rw [List.dropWhile_cons] at h ⊢
    by_cases ha : p a
    · rw [if_pos ha] at h ⊢
      rw [ih h]
      cases l with
      | nil => simp [List.dropWhile] at h
      | cons b l' => exact (List.getLast?_cons_cons ..).symm
    · rw [if_neg ha]

/-- Members of a `dropWhile` result are members of the list. -/
theorem mem_dropWhile {α : Type} (p : α → Bool) :
    ∀ (l : List α) (a : α), a ∈ List.dropWhile p l → a ∈ l := by
  intro l
  induction l with
  | nil => intro a h; simp at h
  | cons b l ih =>
    intro a h
    rw [List.dropWhile_cons] at h
    by_cases hb : p b
    · rw [if_pos hb] at h
      exact List.mem_cons_of_mem b (ih a h)
    · rw [if_neg hb] at h
      exact h

/-- Lemma: `trimChars` written with Mathlib's right-dropping operation. -/
theorem trimChars_eq_rdropWhile (l : List Char) :
    trimChars l = List.rdropWhile isSp (List.dropWhile isSp l) := rfl

/-- Members of the trimmed list are members of the original. -/
theorem mem_trimChars (a : Char) (l : List Char) (h : a ∈ trimChars l) : a ∈ l := by
  unfold trimChars at h
  rw [List.mem_reverse] at h
  have h2 := mem_dropWhile isSp _ a h
  rw [List.mem_reverse] at h2
  exact mem_dropWhile isSp _ a h2

/-- Trimming is idempotent. -/
theorem trimChars_idem (l : List Char) : trimChars (trimChars l) = trimChars l := by
  rw [trimChars_eq_rdropWhile, trimChars_eq_rdropWhile]
  have h1 : List.dropWhile isSp (List.rdropWhile isSp (List.dropWhile isSp l)) =
      List.rdropWhile isSp (List.dropWhile isSp l) := by
    cases ht : List.rdropWhile isSp (List.dropWhile isSp l) with
    | nil => rfl
    | cons c t' =>
      have hc : isSp c = false := by
        have h0 : (List.rdropWhile isSp (List.dropWhile isSp l)).head? = some c := by
          rw [ht]
          rfl
        unfold List.rdropWhile at h0
        rw [List.head?_reverse] at h0
        have hne : List.dropWhile isSp (List.dropWhile isSp l).reverse ≠ [] := by
          intro hemp
          unfold List.rdropWhile at ht
          rw [hemp] at ht
          simp at ht
        rw [dropWhile_keeps_getLast isSp _ hne, List.getLast?_reverse] at h0
        cases hd : List.dropWhile isSp l with
        | nil => rw [hd] at h0; simp at h0
        | cons c0 t0 =>
          rw [hd] at h0
          simp at h0
          subst h0
          exact dropWhile_head_false isSp l c0 t0 hd
      rw [List.dropWhile_cons, hc]
      simp
  rw [h1, List.rdropWhile_idempotent]

/-- Lemma: `splitOnChar` never returns an empty list of parts. -/
theorem splitOnChar_ne_nil (sep : Char) : ∀ l : List Char, splitOnChar sep l ≠ [] := by
  intro l
  induction l with
  | nil => simp [splitOnChar]
  | cons c rest ih =>
    cases h : splitOnChar sep rest with
    | nil => exact absurd h ih
    | cons p ps =>
      simp only [splitOnChar, h]
      by_cases hc : c = sep <;> simp [hc]

/-- A list without the separator is a single part. -/
theorem splitOnChar_no_sep (sep : Char) :
    ∀ l : List Char, sep ∉ l → splitOnChar sep l = [l] := by
  intro l
  induction l with
  | nil => intro _; rfl
  | cons c rest ih =>
    intro h
    rw [List.mem_cons, not_or] at h
    obtain ⟨hc, hrest⟩ := h
    simp [splitOnChar, ih hrest, Ne.symm hc]

/-- Splitting a separator-free prefix followed by a separator peels the
prefix off as the first part. -/
theorem splitOnChar_append (sep : Char) :
    ∀ (a rest : List Char), sep ∉ a →
      splitOnChar sep (a ++ sep :: rest) = a :: splitOnChar sep rest := by
  intro a
  induction a with
  | nil =>
    intro rest _
    cases h : splitOnChar sep rest with
    | nil => exact absurd h (splitOnChar_ne_nil sep rest)
    | cons p ps => simp [splitOnChar, h]
  | cons c a' ih =>
    intro rest h
    rw [List.mem_cons, not_or] at h
    obtain ⟨hc, ha'⟩ := h
    rw [List.cons_append]
    simp only [splitOnChar, ih rest ha']
    simp [Ne.symm hc]

/-- Every part produced by `splitOnChar` is free of the separator. -/
theorem splitOnChar_parts_no_sep (sep : Char) :
    ∀ (l : List Char) (pt : List Char), pt ∈ splitOnChar sep l → sep ∉ pt := by
  intro l
  induction l with
  | nil =>
    intro pt hpt
    simp [splitOnChar] at hpt
    subst hpt
    simp
  | cons c rest ih =>
    intro pt hpt
    cases h : splitOnChar sep rest with
    | nil => exact absurd h (splitOnChar_ne_nil sep rest)
    | cons p ps =>
      rw [show splitOnChar sep (c :: rest) =
          if c = sep then [] :: p :: ps else (c :: p) :: ps by
        simp only [splitOnChar, h]] at hpt
      by_cases hc : c = sep
      · rw [if_pos hc] at hpt
        rcases List.mem_cons.mp hpt with rfl | hpt2
        · simp
        · exact ih pt (by rw [h]; exact hpt2)
      · rw [if_neg hc] at hpt
        rcases List.mem_cons.mp hpt with rfl | hpt2
        · intro hmem
          rcases List.mem_cons.mp hmem with rfl | hmem2
          · exact hc rfl
          · exact ih p (by rw [h]; exact List.mem_cons_self p ps) hmem2
        · exact ih pt (by rw [h]; exact List.mem_cons_of_mem p hpt2)

/-- A successful `splitOnEq` decomposes its input around the first `=`. -/
theorem splitOnEq_some :
    ∀ (l k v : List Char), splitOnEq l = some (k, v) →
      l = k ++ '=' :: v ∧ '=' ∉ k := by
  intro l
  induction l with
  | nil => intro k v h; simp [splitOnEq] at h
  | cons c rest ih =>
    intro k v h
    by_cases hc : c = '='
    · rw [show splitOnEq (c :: rest) = some ([], rest) by simp [splitOnEq, hc]] at h
      obtain ⟨rfl, rfl⟩ : ([] : List Char) = k ∧ rest = v := by
        simpa [Prod.ext_iff] using h
      subst hc
      exact ⟨rfl, by simp⟩
    · rw [show splitOnEq (c :: rest) =
          (splitOnEq rest).map (fun kv => (c :: kv.1, kv.2)) by
        simp [splitOnEq, hc]] at h
      cases hrest : splitOnEq rest with
      | none => rw [hrest] at h; simp at h
      | some kv =>
        rw [hrest] at h
        simp [Prod.ext_iff] at h
        obtain ⟨h1, h2⟩ := h
        obtain ⟨ha, hb⟩ := ih kv.1 kv.2 (by rw [hrest])
        subst h1 h2
        refine ⟨by simp [ha], ?_⟩
        intro hmem
        rcases List.mem_cons.mp hmem with he | he
        · exact hc he.symm
        · exact hb he

/-- Lemma: `splitOnEq` on a canonical `key=value` print recovers key and value. -/
theorem splitOnEq_roundtrip :
    ∀ (k v : List Char), '=' ∉ k → splitOnEq (k ++ '=' :: v) = some (k, v) := by
  intro k
  induction k with
  | nil => intro v _; simp [splitOnEq]
  | cons c k' ih =>
    intro v h
    rw [List.mem_cons, not_or] at h
    obtain ⟨hc, hk'⟩ := h
    rw [List.cons_append]
    simp [splitOnEq, ih v hk', Ne.symm hc]

/-- What a successful `parseAttr` reveals about its output: the key and
value are the trimmed halves around the first `=`, and the key is
non-empty. -/
theorem parseAttr_some (part k v : List Char) (h : parseAttr part = some (k, v)) :
    ∃ k₀ v₀, splitOnEq part = some (k₀, v₀) ∧
      k = trimChars k₀ ∧ v = trimChars v₀ ∧ k ≠ [] := by
  unfold parseAttr at h
  cases hsp : splitOnEq part with
  | none => rw [hsp] at h; simp at h
  | some kv =>
    rw [hsp] at h
    have h' : (if trimChars kv.1 = [] then none
        else some (trimChars kv.1, trimChars kv.2)) = some (k, v) := h
    by_cases hk : trimChars kv.1 = []
    · rw [if_pos hk] at h'
      simp at h'
    · rw [if_neg hk] at h'
      simp [Prod.ext_iff] at h'
      obtain ⟨h1, h2⟩ := h'
      refine ⟨kv.1, kv.2, rfl, h1.symm, h2.symm, ?_⟩
      rw [h1] at hk
      exact hk

/-- Lemma: `parseAttr` on a canonically printed attribute recovers the pair. -/
theorem parseAttr_roundtrip (k v : List Char)
    (hk : trimChars k = k) (hv : trimChars v = v) (hne : k ≠ []) (heq : '=' ∉ k) :
    parseAttr (k ++ '=' :: v) = some (k, v) := by
  unfold parseAttr
  rw [splitOnEq_roundtrip k v heq]
  simp [hk, hv, hne]

/-- Every attribute returned by `parseAttrs` is parsed from some part of
the input. -/
theorem parseAttrs_mem :
    ∀ (parts : List (List Char)) (as : List (List Char × List Char)),
      parseAttrs parts = some as →
      ∀ kv ∈ as, ∃ part ∈ parts, parseAttr part = some kv := by
  intro parts
  induction parts with
  | nil =>
    intro as h kv hkv
    simp [parseAttrs] at h
    subst h
    simp at hkv
  | cons part rest ih =>
    intro as h kv hkv
    unfold parseAttrs at h
    cases h1 : parseAttr part with
    | none => rw [h1] at h; simp at h
    | some kv1 =>
      cases h2 : parseAttrs rest with
      | none => rw [h1, h2] at h; simp at h
      | some kvs =>
        rw [h1, h2] at h
        simp at h
        subst h
        rcases List.mem_cons.mp hkv with rfl | hkv2
        · exact ⟨part, List.mem_cons_self part rest, h1⟩
        · obtain ⟨p, hp, hpa⟩ := ih kvs h2 kv hkv2
          exact ⟨p, List.mem_cons_of_mem part hp, hpa⟩

/-- Lemma: `parseAttrs` on canonically printed well-formed attributes recovers the
attribute list. -/
theorem parseAttrs_roundtrip :
    ∀ as : List (List Char × List Char),
      (∀ kv ∈ as, goodToken kv.1 ∧ kv.1 ≠ [] ∧ '=' ∉ kv.1 ∧ goodToken kv.2) →
      parseAttrs (as.map (fun kv => kv.1 ++ '=' :: kv.2)) = some as := by
  intro as
  induction as with
  | nil => intro _; rfl
  | cons kv as' ih =>
    intro h
    obtain ⟨⟨hk, _⟩, hne, heq, ⟨hv, _⟩⟩ := h kv (List.mem_cons_self kv as')
    have hrest := ih (fun kv2 hkv2 => h kv2 (List.mem_cons_of_mem kv hkv2))
    rw [List.map_cons]
    unfold parseAttrs
    rw [parseAttr_roundtrip kv.1 kv.2 hk hv hne heq, hrest]

/-- Splitting the canonical print of a leading token followed by printed
attribute parts recovers the token and the parts. -/
theorem splitOnChar_print :
    ∀ (as : List (List Char × List Char)) (x : List Char),
      ',' ∉ x →
      (∀ kv ∈ as, ',' ∉ kv.1 ∧ ',' ∉ kv.2) →
      splitOnChar ','
          (x ++ (as.map (fun kv => ',' :: (kv.1 ++ '=' :: kv.2))).flatten) =
        x :: as.map (fun kv => kv.1 ++ '=' :: kv.2) := by
  intro as
  induction as with
  | nil =>
    intro x hx _
    simp [splitOnChar_no_sep ',' x hx]
  | cons kv as' ih =>
    intro x hx h
    obtain ⟨hk, hv⟩ := h kv (List.mem_cons_self kv as')
    have hkv' : ',' ∉ kv.1 ++ '=' :: kv.2 := by
      intro hmem
      rcases List.mem_append.mp hmem with hmem | hmem
      · exact hk hmem
      · rcases List.mem_cons.mp hmem with he | he
        · exact absurd he (by decide)
        · exact hv he
    have hrest := ih (kv.1 ++ '=' :: kv.2) hkv'
      (fun kv2 hkv2 => h kv2 (List.mem_cons_of_mem kv hkv2))
    calc splitOnChar ','
          (x ++ (((kv :: as').map (fun kv => ',' :: (kv.1 ++ '=' :: kv.2))).flatten))
        = splitOnChar ','
            (x ++ ',' :: ((kv.1 ++ '=' :: kv.2) ++
              ((as'.map (fun kv => ',' :: (kv.1 ++ '=' :: kv.2))).flatten))) := by
          simp
      _ = x :: splitOnChar ','
            ((kv.1 ++ '=' :: kv.2) ++
              ((as'.map (fun kv => ',' :: (kv.1 ++ '=' :: kv.2))).flatten)) :=
          splitOnChar_append ',' x _ hx
      _ = x :: (kv.1 ++ '=' :: kv.2) :: as'.map (fun kv => kv.1 ++ '=' :: kv.2) := by
          rw [hrest]
      _ = x :: ((kv :: as').map (fun kv => kv.1 ++ '=' :: kv.2)) := by simp

/-- Every `Caps` value produced by `caps_from_chars` satisfies the shape
invariant. -/
theorem caps_from_chars_wellFormed (l : List Char) (c : Caps)
    (h : caps_from_chars l = some c) : capsWellFormed c := by
  unfold caps_from_chars at h
  cases hsp : splitOnChar ',' l with
  | nil => rw [hsp] at h; simp at h
  | cons t parts =>
    rw [hsp] at h
    have h' : (if trimChars t = [] ∨ '=' ∈ trimChars t then none
        else (parseAttrs parts).map (fun as => (⟨trimChars t, as⟩ : Caps))) = some c := h
    by_cases hbad : trimChars t = [] ∨ '=' ∈ trimChars t
    · rw [if_pos hbad] at h'
      simp at h'
    · rw [if_neg hbad] at h'
      cases hpa : parseAttrs parts with
      | none => rw [hpa] at h'; simp at h'
      | some as =>
        rw [hpa] at h'
        simp at h'
        subst h'
        rw [not_or] at hbad
        obtain ⟨hne, heq⟩ := hbad
        have ht_nocomma : ',' ∉ t :=
          splitOnChar_parts_no_sep ',' l t
            (by rw [hsp]; exact List.mem_cons_self t parts)
        refine ⟨⟨trimChars_idem t, ?_⟩, hne, heq, ?_⟩
        · exact fun hmem => ht_nocomma (mem_trimChars ',' t hmem)
        · intro kv hkv
          obtain ⟨part, hpart, hparse⟩ := parseAttrs_mem parts as hpa kv hkv
          obtain ⟨k₀, v₀, hsplit, hkeq, hveq, hkne⟩ :=
            parseAttr_some part kv.1 kv.2 (by rw [hparse])
          obtain ⟨hpart_eq, hk₀⟩ := splitOnEq_some part k₀ v₀ hsplit
          have hpart_nocomma : ',' ∉ part :=
            splitOnChar_parts_no_sep ',' l part
              (by rw [hsp]; exact List.mem_cons_of_mem t hpart)
          have hk_sub : ∀ a, a ∈ kv.1 → a ∈ k₀ := by
            intro a ha
            rw [hkeq] at ha
            exact mem_trimChars a k₀ ha
          have hv_sub : ∀ a, a ∈ kv.2 → a ∈ v₀ := by
            intro a ha
            rw [hveq] at ha
            exact mem_trimChars a v₀ ha
          have hk_part : ∀ a, a ∈ kv.1 → a ∈ part := by
            intro a ha
            rw [hpart_eq]
            exact List.mem_append.mpr (.inl (hk_sub a ha))
          have hv_part : ∀ a, a ∈ kv.2 → a ∈ part := by
            intro a ha
            rw [hpart_eq]
            exact List.mem_append.mpr (.inr (List.mem_cons_of_mem _ (hv_sub a ha)))
          refine ⟨⟨?_, ?_⟩, hkne, ?_, ⟨?_, ?_⟩⟩
          · rw [hkeq]; exact trimChars_idem k₀
          · exact fun hmem => hpart_nocomma (hk_part ',' hmem)
          · exact fun hmem => hk₀ (hk_sub '=' hmem)
          · rw [hveq]; exact trimChars_idem v₀
          · exact fun hmem => hpart_nocomma (hv_part ',' hmem)

/-- A well-formed `Caps` value reparses from its canonical print to exactly
itself. -/
theorem caps_print_parse (c : Caps) (h : capsWellFormed c) :
    caps_from_chars (caps_to_chars c) = some c := by
  obtain ⟨⟨hmt_trim, hmt_comma⟩, hmt_ne, hmt_eq, hattrs⟩ := h
  have hsp := splitOnChar_print c.attrs c.mediaType hmt_comma
    (fun kv hkv =>
      ⟨((hattrs kv hkv).1).2, ((hattrs kv hkv).2.2.2).2⟩)
  unfold caps_from_chars caps_to_chars
  rw [hsp]
  have hguard : ¬ (trimChars c.mediaType = [] ∨ '=' ∈ trimChars c.mediaType) := by
    rw [hmt_trim]
    exact not_or.mpr ⟨hmt_ne, hmt_eq⟩
  show (if trimChars c.mediaType = [] ∨ '=' ∈ trimChars c.mediaType then none
    else Option.map (fun as => (⟨trimChars c.mediaType, as⟩ : Caps))
      (parseAttrs (List.map (fun kv => kv.1 ++ '=' :: kv.2) c.attrs))) = some c
  rw [if_neg hguard, parseAttrs_roundtrip c.attrs hattrs, hmt_trim]
  rfl

/-- C8: for every well-formed capability string `s` (one that
`swift_gst_caps_from_string` accepts), converting to a Caps value and back
with `swift_gst_caps_to_string` yields a string semantically equivalent to
`s`: it reparses to exactly the same structured content (equal media type,
same attributes), so the round-trip is insensitive to the whitespace and
attribute order of the original string. -/
theorem caps_string_roundtrip_semantically_equivalent :
    ∀ (s : String) (c : Caps),
      swift_gst_caps_from_string s = some c →
      swift_gst_caps_from_string (swift_gst_caps_to_string c) = some c ∧
      capsEquiv (swift_gst_caps_to_string c) s := by
  intro s c h
  have hwf := caps_from_chars_wellFormed s.data c h
  have hrt : swift_gst_caps_from_string (swift_gst_caps_to_string c) = some c := by
    show caps_from_chars (String.mk (caps_to_chars c)).data = some c
    exact caps_print_parse c hwf
  exact ⟨hrt, c, c, hrt, h, rfl, List.Perm.refl c.attrs⟩

/-- C8 witness: a concrete capability string with whitespace round-trips to
the same structured content. -/
theorem caps_string_roundtrip_witness :
    swift_gst_caps_from_string
        (swift_gst_caps_to_string
          ⟨"video/x-raw".data, [("width".data, "640".data), ("height".data, "480".data)]⟩) =
      some ⟨"video/x-raw".data,
        [("width".data, "640".data), ("height".data, "480".data)]⟩ ∧
    capsEquiv
      (swift_gst_caps_to_string
        ⟨"video/x-raw".data, [("width".data, "640".data), ("height".data, "480".data)]⟩)
      "video/x-raw, width=640, height= 480" :=
  caps_string_roundtrip_semantically_equivalent "video/x-raw, width=640, height= 480"
    ⟨"video/x-raw".data, [("width".data, "640".data), ("height".data, "480".data)]⟩
    (by decide)
